import Mathlib

/-!
Shallow embedding of the wall-of-signers name-preparation pipeline and
scroll/playback engine.

JavaScript strings are modelled as `List Char`; `String.prototype.trim`,
`String.prototype.split('\n')`, `Array.prototype.filter` and friends are
modelled by the corresponding list operations.  `Math.floor(Math.random() *
(i + 1))` is modelled by an oracle `choices : Nat → Nat` giving the random
index drawn at loop counter `i`.  The DOM `scrollTop` property is a rational
(browsers accept fractional scroll offsets) while `scrollHeight` is an
integer, as the DOM CSSOM View specification rounds it.
-/

namespace WallOfSigners

/-- The set of characters `String.prototype.trim` removes (JavaScript
WhiteSpace and LineTerminator code points). -/
def isJsSpace (c : Char) : Bool :=
  c.val ∈ [9, 10, 11, 12, 13, 32, 160, 5760, 8192, 8193, 8194, 8195, 8196, 8197,
    8198, 8199, 8200, 8201, 8202, 8232, 8233, 8239, 8287, 12288, 65279]

/-- `s.trim()` for a JavaScript string: strip leading and trailing
whitespace. -/
def trimL (s : List Char) : List Char :=
  ((s.dropWhile isJsSpace).reverse.dropWhile isJsSpace).reverse

/-- `parseCsv` from src/constants.ts:
`csvString.trim().split('\n')`, then `.slice(1)` to drop the header row,
then `.filter(name => name.trim() !== '')` to drop blank lines. -/
def parseCsv (csvString : List Char) : List (List Char) :=
  let lines := (trimL csvString).splitOn '\n'
  (lines.drop 1).filter (fun name => !(trimL name).isEmpty)

/-- One iteration of the Fisher-Yates loop body:
`[newArr[i], newArr[j]] = [newArr[j], newArr[i]]`.  Out-of-range indices
leave the list unchanged (the loop only ever produces in-range indices). -/
def listSwap (l : List α) (i j : Nat) : List α :=
  match l[i]?, l[j]? with
  | some a, some b => (l.set i b).set j a
  | _, _ => l

/-- The Fisher-Yates loop of `shuffleArray`, counting `i` down from
`newArr.length - 1` to `1`, swapping index `i` with index `choices i`. -/
def fyLoop (choices : Nat → Nat) : Nat → List α → List α
  | 0, l => l
  | i + 1, l => fyLoop choices i (listSwap l (i + 1) (choices (i + 1)))

/-- `shuffleArray` from src/constants.ts: copy the input
(`const newArr = [...array]`), run the Fisher-Yates loop from
`newArr.length - 1` down to `1`, return the copy. -/
def shuffleArray (array : List α) (choices : Nat → Nat) : List α :=
  fyLoop choices (array.length - 1) array

/-- The outcome of `await fetch(url)` / `await response.text()` as seen by
`fetchCsvWallOfNames`: a successful response with a body, a non-ok response
with a status text, or an exception thrown by `fetch` or `text()`. -/
inductive FetchResult where
  | success (body : List Char)
  | httpError (statusText : List Char)
  | exn (error : List Char)

/-- A `console.error` record emitted by `fetchCsvWallOfNames`. -/
inductive LogEntry where
  | fetchFailed (url statusText : List Char)
  | fetchException (url error : List Char)
deriving DecidableEq

/-- `fetchCsvWallOfNames` from src/constants.ts, as a function of the fetch
outcome and the random oracle.  Returns the prepared name list together with
the list of `console.error` calls made.  On success: parse, shuffle, repeat
20 times (`Array(20).fill(shuffledNames).flat()`), then duplicate
(`[...repeatedCsvNames, ...repeatedCsvNames]`).  On a non-ok response or an
exception: log and return `[]`. -/
def fetchCsvWallOfNames (url : List Char) (res : FetchResult)
    (choices : Nat → Nat) : List (List Char) × List LogEntry :=
  match res with
  | .success body =>
      let preformattedNames := parseCsv body
      let shuffledNames := shuffleArray preformattedNames choices
      let repeatedCsvNames := (List.replicate 20 shuffledNames).flatten
      (repeatedCsvNames ++ repeatedCsvNames, [])
  | .httpError statusText => ([], [.fetchFailed url statusText])
  | .exn error => ([], [.fetchException url error])

/-- One tick of `scrollStep` from src/components/WallOfNames.tsx, acting on
the scroll cursor:
`if (scrollTop >= scrollHeight / 2) scrollTop = 0; else scrollTop += 0.25`.
The extent `H` (the DOM `scrollHeight`, an integer) is read afresh at the
tick, never cached. -/
def scrollStep (H : Nat) (cursor : ℚ) : ℚ :=
  if (H : ℚ) / 2 ≤ cursor then 0 else cursor + 1 / 4

/-- The cursor after `n` ticks starting from `0`, where tick `n` reads the
scrollable extent `Hs n` afresh from the DOM. -/
def runTicks (Hs : Nat → Nat) : Nat → ℚ
  | 0 => 0
  | n + 1 => scrollStep (Hs n) (runTicks Hs n)

/-- The state the `WallOfNames` animation effect manipulates: the
`isPlaying` prop as last seen, whether an animation-frame callback is
currently scheduled (`animationFrameIdRef` holds a live id), and the scroll
cursor of the container. -/
structure EngineState where
  playing : Bool
  scheduled : Bool
  cursor : ℚ
deriving DecidableEq

/-- The cleanup function of the `WallOfNames` effect:
`cancelAnimationFrame(animationFrameIdRef.current)` — any pending frame is
cancelled. -/
def cleanupEffect (s : EngineState) : EngineState :=
  { s with scheduled := false }

/-- Running the `WallOfNames` effect for a new `isPlaying` value: the
previous effect's cleanup runs first, then the body schedules the first
animation frame only `if (isPlaying)`. -/
def runEffect (s : EngineState) (isPlaying : Bool) : EngineState :=
  let s0 := cleanupEffect s
  if isPlaying then { s0 with playing := true, scheduled := true }
  else { s0 with playing := false }

/-- Delivery of one animation frame with current scrollable extent `H`: if a
callback is scheduled, `scrollStep` runs (moving the cursor) and re-requests
the next frame; otherwise nothing happens. -/
def frameTick (H : Nat) (s : EngineState) : EngineState :=
  if s.scheduled then { s with cursor := scrollStep H s.cursor } else s

/-- `togglePlay` (both the inline `App` and the `SignersOverlay` variants):
`setIsPlaying(prev => !prev)`. -/
def togglePlay (isPlaying : Bool) : Bool := !isPlaying

/-- The observable state a keydown event acts on in the inline `App`
variant: the `isPlaying` state and whether `event.preventDefault()` has been
called on the event. -/
structure KeyEventState where
  playing : Bool
  defaultPrevented : Bool
deriving DecidableEq

/-- `handleKeyDown` from the inline `App` variant:
`if (event.key === ' ' or 'Spacebar') { event.preventDefault(); togglePlay(); }`. -/
def handleKeyDownApp (key : String) (s : KeyEventState) : KeyEventState :=
  if key = " " ∨ key = "Spacebar" then
    { s with defaultPrevented := true, playing := togglePlay s.playing }
  else s

/-- The observable state of the `SignersOverlay` component relevant to its
key handler and visibility effect: play state, overlay visibility, whether
the surrounding page's body scroll is locked (`document.body.style.overflow
= 'hidden'`), and whether the current event's default was prevented. -/
structure OverlayState where
  playing : Bool
  visible : Bool
  bodyScrollLocked : Bool
  defaultPrevented : Bool
deriving DecidableEq

/-- `closeAndReset` from `SignersOverlay`, with the 300 ms timeout elapsed:
`onClose()` hides the overlay, then `setIsPlaying(!matchMedia('(prefers-reduced-motion: reduce)').matches)`.
`reduced` is the value of the reduced-motion media query at that moment. -/
def closeAndReset (reduced : Bool) (s : OverlayState) : OverlayState :=
  { s with visible := false, playing := !reduced }

/-- `handleKeyDown` from `SignersOverlay`: `Escape` triggers
`closeAndReset`; space (`' '` or `'Spacebar'`) calls `preventDefault()` and
`togglePlay()`. -/
def handleKeyDownOverlay (reduced : Bool) (key : String) (s : OverlayState) :
    OverlayState :=
  let s1 := if key = "Escape" then closeAndReset reduced s else s
  if key = " " ∨ key = "Spacebar" then
    { s1 with defaultPrevented := true, playing := togglePlay s1.playing }
  else s1

/-- The `SignersOverlay` visibility effect: when `isVisible` is true, lock
the body scroll and set `isPlaying` from the reduced-motion media query
(`reduced` is its value at the moment of the read — the query is read once
here, not subscribed to); when `isVisible` is false, only unlock the body
scroll. -/
def overlayVisibilityEffect (isVisible reduced : Bool) (s : OverlayState) :
    OverlayState :=
  if isVisible then
    { s with bodyScrollLocked := true, playing := !reduced }
  else
    { s with bodyScrollLocked := false }

/-- The observable state the inline `App` mount effect acts on: the play
state and whether the global keydown listener is attached. -/
structure AppState where
  playing : Bool
  keyListenerAttached : Bool
deriving DecidableEq

/-- The inline `App` mount effect: attach the keydown listener, then
`setIsPlaying(!matchMedia('(prefers-reduced-motion: reduce)').matches)`
where `reduced` is the media query's value at the moment of the read (read
once, not subscribed to). -/
def appMountEffect (reduced : Bool) (s : AppState) : AppState :=
  { s with keyListenerAttached := true, playing := !reduced }

/-- A tiny heap of JavaScript arrays, for stating aliasing properties: cell
`r` holds the array the reference `r` points to; fresh arrays are allocated
at the end. -/
abbrev Heap (α : Type) := List (List α)

/-- The Fisher-Yates loop of `shuffleArray` run against the heap, mutating
only the cell `nr` that holds `newArr`. -/
def fyLoopHeap (choices : Nat → Nat) (nr : Nat) : Nat → Heap α → Heap α
  | 0, h => h
  | i + 1, h =>
      fyLoopHeap choices nr i
        (h.set nr (listSwap (h.getD nr []) (i + 1) (choices (i + 1))))

/-- `shuffleArray` as a heap operation: `const newArr = [...array]`
allocates a fresh cell holding a copy of the array referenced by `r`; the
loop mutates only that fresh cell; the fresh reference is returned. -/
def shuffleArrayHeap (h : Heap α) (r : Nat) (choices : Nat → Nat) :
    Heap α × Nat :=
  let arr := h.getD r []
  let nr := h.length
  (fyLoopHeap choices nr (arr.length - 1) (h ++ [arr]), nr)

/-! ### Permutation lemmas for the Fisher-Yates loop -/

lemma cons_set_perm {α : Type} (xs : List α) (k : Nat) (b x : α)
    (hk : xs[k]? = some b) : (b :: xs.set k x).Perm (x :: xs) := by
  induction xs generalizing k with
  | nil => simp at hk
  | cons y ys ih =>
    cases k with
    | zero =>
      simp at hk
      subst hk
      simp only [List.set]
      exact List.Perm.swap _ _ _
    | succ m =>
      simp at hk
      have h1 : (b :: y :: ys.set m x).Perm (y :: b :: ys.set m x) :=
        List.Perm.swap y b (ys.set m x)
      have h2 : (y :: b :: ys.set m x).Perm (y :: x :: ys) :=
        List.Perm.cons y (ih m hk)
      have h3 : (y :: x :: ys).Perm (x :: y :: ys) := List.Perm.swap x y ys
      simpa [List.set] using (h1.trans h2).trans h3

lemma set_set_perm {α : Type} (l : List α) (i j : Nat) (a b : α)
    (hi : l[i]? = some a) (hj : l[j]? = some b) :
    ((l.set i b).set j a).Perm l := by
  induction l generalizing i j with
  | nil => simp at hi
  | cons x xs ih =>
    cases i with
    | zero =>
      simp at hi
      subst hi
      cases j with
      | zero =>
        simp at hj
        subst hj
        simp [List.set]
      | succ m =>
        simp at hj
        simp only [List.set]
        exact cons_set_perm _ _ _ _ hj
    | succ k =>
      cases j with
      | zero =>
        simp at hj
        subst hj
        simp only [List.getElem?_cons_succ] at hi
        simp only [List.set]
        exact cons_set_perm _ _ _ _ hi
      | succ m =>
        simp only [List.getElem?_cons_succ] at hi hj
        simpa [List.set] using List.Perm.cons x (ih k m hi hj)

lemma listSwap_perm {α : Type} (l : List α) (i j : Nat) :
    (listSwap l i j).Perm l := by
  unfold listSwap
  cases hi : l[i]? with
  | none => cases l[j]? <;> simp
  | some a =>
    cases hj : l[j]? with
    | none => simp
    | some b => simpa using set_set_perm l i j a b hi hj

lemma fyLoop_perm {α : Type} (choices : Nat → Nat) (n : Nat) (l : List α) :
    (fyLoop choices n l).Perm l := by
  induction n generalizing l with
  | zero => simp [fyLoop]
  | succ m ih =>
    exact (ih (listSwap l (m + 1) (choices (m + 1)))).trans
      (listSwap_perm l (m + 1) (choices (m + 1)))

lemma shuffleArray_perm {α : Type} (l : List α) (choices : Nat → Nat) :
    (shuffleArray l choices).Perm l :=
  fyLoop_perm choices (l.length - 1) l

lemma shuffleArray_length {α : Type} (l : List α) (choices : Nat → Nat) :
    (shuffleArray l choices).length = l.length :=
  (shuffleArray_perm l choices).length_eq

lemma flatten_replicate_length {α : Type} (n : Nat) (l : List α) :
    ((List.replicate n l).flatten).length = n * l.length := by
  induction n with
  | zero => simp
  | succ m ih => simp [List.replicate_succ, ih, Nat.succ_mul, Nat.add_comm]

/-- C4: shuffleArray is a permutation.  For every input list and every
sequence of random index choices `j_i` with `0 ≤ j_i ≤ i` (one choice per
loop iteration), the list returned by `shuffleArray` has the same length as
the input and the multiset of its elements equals the multiset of the
input's elements. -/
theorem shuffleArray_is_permutation {α : Type} (l : List α)
    (choices : Nat → Nat) (_hchoices : ∀ i, choices i ≤ i) :
    (shuffleArray l choices).length = l.length ∧
      (shuffleArray l choices : Multiset α) = (l : Multiset α) :=
  ⟨shuffleArray_length l choices,
    Multiset.coe_eq_coe.mpr (shuffleArray_perm l choices)⟩

/-- Witness for C4 at a concrete list and choice sequence. -/
theorem shuffleArray_is_permutation_witness :
    (shuffleArray [1, 2, 3] (fun _ => 0)).length = ([1, 2, 3] : List Nat).length ∧
      (shuffleArray [1, 2, 3] (fun _ => 0) : Multiset Nat) =
        (([1, 2, 3] : List Nat) : Multiset Nat) :=
  shuffleArray_is_permutation [1, 2, 3] (fun _ => 0) (fun i => Nat.zero_le i)

/-- C1: for every CSV input text whose parsed data contains N non-blank rows,
`fetchCsvWallOfNames` on a successful fetch of that text returns a sequence
of length exactly `2 * 20 * N`, and the first half of that sequence is
element-wise equal to its second half. -/
theorem fetchCsv_length_and_halves (url body : List Char)
    (choices : Nat → Nat) :
    ((fetchCsvWallOfNames url (.success body) choices).1).length
        = 2 * 20 * (parseCsv body).length ∧
      ((fetchCsvWallOfNames url (.success body) choices).1).take
          (20 * (parseCsv body).length)
        = ((fetchCsvWallOfNames url (.success body) choices).1).drop
          (20 * (parseCsv body).length) := by
  have hlen : ((List.replicate 20 (shuffleArray (parseCsv body) choices)).flatten).length
      = 20 * (parseCsv body).length := by
    rw [flatten_replicate_length, shuffleArray_length]
  constructor
  · simp only [fetchCsvWallOfNames, List.length_append, hlen]
    ring
  · simp only [fetchCsvWallOfNames]
    rw [← hlen, List.take_left, List.drop_left]

/-- C3 counterexample: on the input `"h\n a"` the parser returns the line
`" a"` untrimmed, so its output element is not a trimmed string (trimming it
changes it). -/
theorem parseCsv_keeps_untrimmed_element :
    parseCsv ("h\n a".toList) = [" a".toList] ∧
      trimL (" a".toList) ≠ " a".toList := by
  constructor
  · rfl
  · decide

/-- C3 amended: every element of the list returned by `parseCsv` is a
non-blank string (its trim is non-empty), though the element itself is kept
untrimmed; the parser splits the trimmed input into lines, discards the
first (header) line, and discards every line that is blank after trimming,
so the output is a sublist of the non-header lines and neither the header
line nor any blank line appears in it. -/
theorem parseCsv_elements_nonblank (s e : List Char) (he : e ∈ parseCsv s) :
    ¬(trimL e).isEmpty = true ∧
      List.Sublist (parseCsv s) (((trimL s).splitOn '\n').drop 1) := by
  constructor
  · have := List.of_mem_filter he
    simpa using this
  · exact List.filter_sublist _

/-- Witness for C3's amended theorem at a concrete input. -/
theorem parseCsv_elements_nonblank_witness :
    ¬(trimL ("Alice".toList)).isEmpty = true ∧
      List.Sublist (parseCsv ("name\nAlice\n\nBob".toList))
        (((trimL ("name\nAlice\n\nBob".toList)).splitOn '\n').drop 1) :=
  parseCsv_elements_nonblank ("name\nAlice\n\nBob".toList) ("Alice".toList)
    (by decide)

/-- C5 counterexample: on a successful fetch whose body is empty, the
function returns the empty sequence but logs nothing — the second component
(the list of `console.error` calls) is empty, so the failure is not
reported to the error log. -/
theorem fetchCsv_empty_source_logs_nothing :
    fetchCsvWallOfNames ("./signers.csv".toList)
      (.success ("".toList)) (fun _ => 0) = ([], []) := by
  rfl

/-- C5 amended: `fetchCsvWallOfNames` never throws to its caller (it is a
total function into a result pair): when the response is non-success it
returns the empty sequence and logs the failure; when the fetch or the text
extraction throws it returns the empty sequence and logs the failure; when
the source is empty (its trim is the empty string) it returns the empty
sequence but logs nothing. -/
theorem fetchCsv_failure_policy (url statusText error body : List Char)
    (choices : Nat → Nat) (hbody : trimL body = []) :
    fetchCsvWallOfNames url (.httpError statusText) choices
        = ([], [.fetchFailed url statusText]) ∧
      fetchCsvWallOfNames url (.exn error) choices
        = ([], [.fetchException url error]) ∧
      fetchCsvWallOfNames url (.success body) choices = ([], []) := by
  refine ⟨rfl, rfl, ?_⟩
  have hparse : parseCsv body = [] := by
    simp [parseCsv, hbody]
  simp [fetchCsvWallOfNames, hparse, shuffleArray, fyLoop]

/-- Witness for C5's amended theorem at a concrete failing fetch and a
concrete empty source. -/
theorem fetchCsv_failure_policy_witness :
    fetchCsvWallOfNames ("./signers.csv".toList)
          (.httpError ("Not Found".toList)) (fun _ => 0)
        = ([], [.fetchFailed ("./signers.csv".toList) ("Not Found".toList)]) ∧
      fetchCsvWallOfNames ("./signers.csv".toList)
          (.exn ("TypeError".toList)) (fun _ => 0)
        = ([], [.fetchException ("./signers.csv".toList) ("TypeError".toList)]) ∧
      fetchCsvWallOfNames ("./signers.csv".toList)
          (.success ("  \n ".toList)) (fun _ => 0) = ([], []) :=
  fetchCsv_failure_policy ("./signers.csv".toList) ("Not Found".toList)
    ("TypeError".toList) ("  \n ".toList) (fun _ => 0) (by decide)

/-! ### Scroll-engine lemmas -/

lemma runTicks_quarter_multiple (Hs : Nat → Nat) (n : Nat) :
    ∃ k : Nat, runTicks Hs n = (k : ℚ) / 4 := by
  induction n with
  | zero => exact ⟨0, by simp [runTicks]⟩
  | succ m ih =>
    obtain ⟨k, hk⟩ := ih
    by_cases h : ((Hs m : ℚ) / 2 ≤ runTicks Hs m)
    · exact ⟨0, by simp [runTicks, scrollStep, h]⟩
    · refine ⟨k + 1, ?_⟩
      rw [hk] at h
      simp only [runTicks, scrollStep, hk, if_neg h]
      push_cast
      ring

lemma scrollStep_le_half (H k : Nat) :
    scrollStep H ((k : ℚ) / 4) ≤ (H : ℚ) / 2 := by
  unfold scrollStep
  by_cases h : ((H : ℚ) / 2 ≤ (k : ℚ) / 4)
  · rw [if_pos h]
    positivity
  · rw [if_neg h]
    push_neg at h
    have hk : (k : ℚ) < 2 * (H : ℚ) := by linarith
    have hk2 : (k : Nat) < 2 * H := by exact_mod_cast hk
    have hk3 : ((k : ℚ) + 1) ≤ 2 * (H : ℚ) := by exact_mod_cast hk2
    linarith

/-- C2: one scroll tick while playing reads the scrollable extent afresh and
either resets the cursor to 0 (when it has reached half the extent) or adds
0.25; starting from 0, after each tick the cursor is at most half the extent
read at that tick — it never exceeds H/2 (the DOM extent `H` being an
integer and the cursor a multiple of 0.25). -/
theorem scroll_cursor_never_exceeds_half (Hs : Nat → Nat) (n : Nat) :
    runTicks Hs (n + 1) ≤ (Hs n : ℚ) / 2 ∧ runTicks Hs 0 = 0 ∧
      ((Hs n : ℚ) / 2 ≤ runTicks Hs n → runTicks Hs (n + 1) = 0) := by
  obtain ⟨k, hk⟩ := runTicks_quarter_multiple Hs n
  refine ⟨?_, rfl, ?_⟩
  · rw [show runTicks Hs (n + 1) = scrollStep (Hs n) (runTicks Hs n) from rfl,
      hk]
    exact scrollStep_le_half (Hs n) k
  · intro hreset
    simp [runTicks, scrollStep, if_pos hreset]

/-- Witness for C2 at a concrete extent sequence: with extent 0 the reset
hypothesis holds at tick 0. -/
theorem scroll_cursor_never_exceeds_half_witness :
    runTicks (fun _ => 0) 1 ≤ ((0 : Nat) : ℚ) / 2 ∧
      runTicks (fun _ => 0) 0 = 0 ∧
      runTicks (fun _ => 0) 1 = 0 :=
  ⟨(scroll_cursor_never_exceeds_half (fun _ => 0) 0).1,
    (scroll_cursor_never_exceeds_half (fun _ => 0) 0).2.1,
    (scroll_cursor_never_exceeds_half (fun _ => 0) 0).2.2
      (by norm_num [runTicks])⟩

/-- C10: if the scrollable extent is 0 (for example when the name sequence
is empty), every tick leaves the cursor at 0: the reset branch fires on
every tick (any cursor ≥ 0 satisfies `cursor ≥ 0/2`) and the increment
branch is never taken. -/
theorem scroll_zero_extent_stays_at_zero (n : Nat) (c : ℚ) (hc : 0 ≤ c) :
    runTicks (fun _ => 0) n = 0 ∧ scrollStep 0 c = 0 := by
  constructor
  · induction n with
    | zero => rfl
    | succ m ih => simp [runTicks, ih, scrollStep]
  · simp only [scrollStep, Nat.cast_zero, zero_div]
    rw [if_pos hc]

/-- Witness for C10 at a concrete tick count and cursor. -/
theorem scroll_zero_extent_stays_at_zero_witness :
    runTicks (fun _ => 0) 3 = 0 ∧ scrollStep 0 5 = 0 :=
  scroll_zero_extent_stays_at_zero 3 5 (by norm_num)

lemma frameTick_not_scheduled (H : Nat) (s : EngineState)
    (h : s.scheduled = false) : frameTick H s = s := by
  simp [frameTick, h]

/-- C6: while paused no scroll tick executes — running the animation effect
with `isPlaying = false` schedules nothing, so any number of animation
frames leaves the whole state (in particular the cursor) unchanged; and the
effect's cleanup (run on pause or teardown) cancels any pending scheduled
frame. -/
theorem paused_no_tick_and_cleanup_cancels (s : EngineState) (H n : Nat) :
    (runEffect s false).scheduled = false ∧
      (frameTick H)^[n] (runEffect s false) = runEffect s false ∧
      ((frameTick H)^[n] (runEffect s false)).cursor = s.cursor ∧
      (cleanupEffect s).scheduled = false := by
  have hsched : (runEffect s false).scheduled = false := rfl
  have hfix : (frameTick H)^[n] (runEffect s false) = runEffect s false :=
    Function.iterate_fixed (frameTick_not_scheduled H _ hsched) n
  refine ⟨hsched, hfix, ?_, rfl⟩
  rw [hfix]
  rfl

/-- C7: a click on the name region flips the play state exactly once, and a
spacebar keydown (key `' '` or `'Spacebar'`, in both the inline and the
overlay variant) flips the play state exactly once and marks the event's
default page-scroll action as prevented. -/
theorem click_and_spacebar_toggle_once (s : KeyEventState) (t : OverlayState)
    (p reduced : Bool) :
    togglePlay p = !p ∧
      handleKeyDownApp " " s
        = { s with playing := !s.playing, defaultPrevented := true } ∧
      handleKeyDownApp "Spacebar" s
        = { s with playing := !s.playing, defaultPrevented := true } ∧
      handleKeyDownOverlay reduced " " t
        = { t with playing := !t.playing, defaultPrevented := true } ∧
      handleKeyDownOverlay reduced "Spacebar" t
        = { t with playing := !t.playing, defaultPrevented := true } := by
  refine ⟨rfl, ?_, ?_, ?_, ?_⟩ <;>
    simp [handleKeyDownApp, handleKeyDownOverlay, togglePlay, closeAndReset]

/-- C8: the play state established by the inline variant's mount effect, and
by the overlay variant whenever it becomes visible, is the negation of the
reduced-motion signal sampled at that moment (Paused when the signal is set,
Playing otherwise), regardless of the prior state; when the overlay effect
runs with visibility false it does not touch the play state (the signal is
read only on mount / on becoming visible, never subscribed to). -/
theorem initial_play_state_from_reduced_motion (reduced : Bool)
    (a : AppState) (t : OverlayState) :
    (appMountEffect reduced a).playing = !reduced ∧
      (overlayVisibilityEffect true reduced t).playing = !reduced ∧
      (overlayVisibilityEffect false reduced t).playing = t.playing := by
  refine ⟨rfl, rfl, rfl⟩

/-! ### Heap lemmas for shuffleArray's aliasing behavior -/

lemma fyLoopHeap_getElem_other {α : Type} (choices : Nat → Nat)
    (nr r' : Nat) (hne : r' ≠ nr) (n : Nat) (h : Heap α) :
    (fyLoopHeap choices nr n h)[r']? = h[r']? := by
  induction n generalizing h with
  | zero => rfl
  | succ m ih =>
    rw [fyLoopHeap, ih, List.getElem?_set_ne (Ne.symm hne)]

lemma heap_set_getD {α : Type} (h : Heap α) (nr : Nat) (v : List α)
    (hlt : nr < h.length) : (h.set nr v).getD nr [] = v := by
  rw [List.getD_eq_getElem _ _ (by simpa using hlt)]
  exact List.getElem_set_self _

lemma fyLoopHeap_getElem_nr {α : Type} (choices : Nat → Nat) (nr : Nat)
    (n : Nat) (h : Heap α) (hlt : nr < h.length) :
    (fyLoopHeap choices nr n h)[nr]?
      = some (fyLoop choices n (h.getD nr [])) := by
  induction n generalizing h with
  | zero =>
    rw [fyLoopHeap, fyLoop, List.getElem?_eq_getElem hlt,
      List.getD_eq_getElem _ _ hlt]
  | succ m ih =>
    rw [fyLoopHeap, fyLoop,
      ih _ (by simpa using hlt),
      heap_set_getD _ _ _ hlt]

/-- C9: `shuffleArray` leaves its argument unchanged — run against a heap of
arrays, the cell the argument reference points to holds the same array
afterwards — and the returned reference is a distinct, freshly allocated
cell (absent from the original heap) holding the shuffled copy. -/
theorem shuffleArray_preserves_argument {α : Type} (h : Heap α) (r : Nat)
    (choices : Nat → Nat) (hr : r < h.length) :
    ((shuffleArrayHeap h r choices).1)[r]? = h[r]? ∧
      (shuffleArrayHeap h r choices).2 ≠ r ∧
      h[(shuffleArrayHeap h r choices).2]? = none ∧
      ((shuffleArrayHeap h r choices).1)[(shuffleArrayHeap h r choices).2]?
        = some (shuffleArray (h.getD r []) choices) := by
  have hne : r ≠ h.length := Nat.ne_of_lt hr
  have happ : (h ++ [h.getD r []])[r]? = h[r]? := by
    rw [List.getElem?_append]
    simp [hr]
  have hlen : h.length < (h ++ [h.getD r []]).length := by simp
  have hgetnr : (h ++ [h.getD r []]).getD h.length [] = h.getD r [] := by
    rw [List.getD_eq_getElem _ _ hlen]
    simp
  refine ⟨?_, fun hcontra => hne hcontra.symm, ?_, ?_⟩
  · rw [show ((shuffleArrayHeap h r choices).1)
        = fyLoopHeap choices h.length ((h.getD r []).length - 1)
            (h ++ [h.getD r []]) from rfl,
      fyLoopHeap_getElem_other choices h.length r hne, happ]
  · exact List.getElem?_eq_none (le_refl _)
  · rw [show ((shuffleArrayHeap h r choices).1)
        = fyLoopHeap choices h.length ((h.getD r []).length - 1)
            (h ++ [h.getD r []]) from rfl,
      show (shuffleArrayHeap h r choices).2 = h.length from rfl,
      fyLoopHeap_getElem_nr choices h.length _ _ hlen, hgetnr]
    rfl

/-- Witness for C9 at a concrete heap of one two-element array. -/
theorem shuffleArray_preserves_argument_witness :
    ((shuffleArrayHeap ([[1, 2]] : Heap Nat) 0 (fun _ => 0)).1)[0]?
        = ([[1, 2]] : Heap Nat)[0]? ∧
      (shuffleArrayHeap ([[1, 2]] : Heap Nat) 0 (fun _ => 0)).2 ≠ 0 ∧
      ([[1, 2]] : Heap Nat)[(shuffleArrayHeap ([[1, 2]] : Heap Nat) 0
          (fun _ => 0)).2]? = none ∧
      ((shuffleArrayHeap ([[1, 2]] : Heap Nat) 0 (fun _ => 0)).1)[
          (shuffleArrayHeap ([[1, 2]] : Heap Nat) 0 (fun _ => 0)).2]?
        = some (shuffleArray (([[1, 2]] : Heap Nat).getD 0 []) (fun _ => 0)) :=
  shuffleArray_preserves_argument [[1, 2]] 0 (fun _ => 0) (by norm_num)

end WallOfSigners
